import Mathlib

/-!
Verification of the bustub buffer-pool core: the clock replacer
(`src/buffer/clock_replacer.cpp`) and the buffer pool manager instance
(`src/buffer/buffer_pool_manager_instance.cpp`).

Representation of the clock replacer. The C++ object owns a circular singly
linked list of `ListNode`s (fields `pin_`, `refer_`, `frame_id_`, `next_`)
with three raw pointers `head_`, `tail_`, `current_` and three `size_t`
counters `capacity_`, `clock_size_`, `pin_size_`. We embed the heap shallowly:

* `ring` is the list of nodes reachable from `head_` following `next_`
  in order (so `ring = []` iff `head_ == nullptr`, the node `ring[0]` is
  `*head_`, and the cyclic `next_` of the last node returns to the head);
* `hand` is the index of `current_` in that list;
* `tail_` is represented implicitly as the last element of `ring` (the
  position the maintained code keeps it at); the counters are `Nat`s and
  `size_t` arithmetic is taken modulo `2 ^ 64` explicitly where the source
  can wrap.

Loops (`while (cnt < clock_size_) { ...; p = p->next_; cnt++ }`) become
fuel recursion with fuel `clock_size_`, visiting index `(start + cnt) % L`
of the list, which is exactly the pointer walk as long as every node the
walk touches is in the ring. `malloc`/`free` of single nodes becomes list
insertion/removal. The `throw "TODO not implement"` in `Unpin` and
undefined behaviour (dereferencing freed or null pointers) are modelled by
`Option`: `none` means the call does not return normally.
-/

namespace Bustub

/-- Wrap-around bound of `size_t` on the LP64 build platform. -/
def U64 : Nat := 2 ^ 64

/-- Truncating `size_t` subtraction `a - b` (valid picture for `b ≤ U64`). -/
def wsub (a b : Nat) : Nat := (a + (U64 - b)) % U64

/-- Value of `INT_MAX` from `<climits>`, the initial `min_frame_id` in `Victim`
(`frame_id_t` is `int32_t`). -/
def INT_MAX : Int := 2147483647

/-- Sentinel `INVALID_PAGE_ID` (-1). -/
def INVALID_PAGE_ID : Int := -1

/-- One descriptor of the clock ring: `struct ListNode` of
`clock_replacer.h` without the `next_` pointer (the ring order carries it). -/
structure ListNode where
  pin : Bool
  refer : Bool
  frame_id : Int
deriving Repr, DecidableEq, Inhabited

/-- State of `ClockReplacer`: counters plus the ring as described in the
file header. -/
structure Clock where
  capacity : Nat
  clock_size : Nat
  pin_size : Nat
  ring : List ListNode
  hand : Nat
deriving Repr, DecidableEq, Inhabited

/-- The update of `min_frame_id`/`min_frame`/`min_pre` performed by lines
67-72 of `Victim` at an unpinned `refer == true` node `e` sitting at ring
index `i`, visited at loop count `k`. The running record is `some
(min_frame_id, index of min_frame, count at which it was recorded)`;
`none` encodes `min_frame == nullptr`, i.e. `min_frame_id == INT_MAX`, so
a first record happens only under `frame_id_ < INT_MAX`. -/
def mUpd (e : ListNode) (i k : Nat) :
    Option (Int × Nat × Nat) → Option (Int × Nat × Nat)
  | none => if e.frame_id < INT_MAX then some (e.frame_id, i, k) else none
  | some (f, j, c) => if e.frame_id < f then some (e.frame_id, i, k) else some (f, j, c)

/-- The scan loop of `ClockReplacer::Victim` (clock_replacer.cpp:47-77).
Arguments: ring length `L`, start position `hand` (= `current_`), remaining
`fuel` (the loop runs while `cnt < clock_size_`), current `cnt`, the ring
being updated `r`, and the running minimum record `m`. Returns the
updated ring, `some (index, cnt)` of the node a `refer == false` break
chose, and the final minimum record. A missing node (`current_ ==
nullptr`) exits the loop. -/
def victimLoop (L hand : Nat) : Nat → Nat → List ListNode →
    Option (Int × Nat × Nat) →
    List ListNode × Option (Nat × Nat) × Option (Int × Nat × Nat)
  | 0, _, r, m => (r, none, m)
  | fuel+1, cnt, r, m =>
    if (hand + cnt) % L < r.length then
      if (r.getD ((hand + cnt) % L) default).pin then victimLoop L hand fuel (cnt+1) r m
      else if (r.getD ((hand + cnt) % L) default).refer = false then
        (r, some ((hand + cnt) % L, cnt), m)
      else
        victimLoop L hand fuel (cnt+1)
          (r.set ((hand + cnt) % L)
            { r.getD ((hand + cnt) % L) default with refer := false })
          (mUpd (r.getD ((hand + cnt) % L) default) ((hand + cnt) % L) cnt m)
    else (r, none, m)

/-- Model of `ClockReplacer::Victim` (clock_replacer.cpp:33-120). Returns
`(some frame_id, s')` for `*frame_id = ...; return true` and `(none, s')`
for `return false`. The removal splice translates the pointer surgery of
lines 84-107 to the head-rooted list: index `t` is the target, `c` the loop
count at which it was chosen (`c = 0` iff the recorded `pre` is null).

* `clock_size_ == 1`: all three pointers are nulled, the ring empties.
* `t = 0` (`target == head_`): `head_ = target->next_; tail_->next_ = head_`
  drops the first node.
* `c = 0` with `t ≠ 0`: `pre` is null, the code substitutes `pre = head_`
  and runs `pre->next_ = target->next_`, so the head is re-linked straight
  to the target's successor and the nodes strictly between head and target
  fall out of the ring.
* otherwise `pre` is the true predecessor `t - 1` and the target alone is
  spliced out.

`current_` ends the loop at the target (break) or back at
`(hand + clock_size) % L` (full revolution), is advanced off the target
(line 105-107), and is re-indexed in the new list. -/
def ClockVictim (s : Clock) : Option Int × Clock :=
  if s.ring = [] then (none, s)
  else
    let L := s.ring.length
    let out := victimLoop L s.hand s.clock_size 0 s.ring none
    let r := out.1
    let tgt : Option (Nat × Nat) := match out.2.1 with
      | some bc => some bc
      | none => out.2.2.map (fun x => (x.2.1, x.2.2))
    match tgt with
    | none => (none, { s with ring := r, hand := (s.hand + s.clock_size) % L })
    | some (t, c) =>
      let fid := (r.getD t default).frame_id
      let ring' := if s.clock_size = 1 then []
        else if t = 0 then r.drop 1
        else if c = 0 then r.take 1 ++ r.drop (t+1)
        else r.eraseIdx t
      let cur0 := if out.2.1.isSome then t else (s.hand + s.clock_size) % L
      let cur1 := if cur0 = t then (t+1) % L else cur0
      let hand' := if s.clock_size = 1 then 0
        else if t = 0 then cur1 - 1
        else if c = 0 then (if cur1 = 0 then 0 else if t + 1 ≤ cur1 then cur1 - t else 1)
        else if cur1 < t then cur1 else cur1 - 1
      (some fid, { s with ring := ring', hand := hand',
                          clock_size := wsub s.clock_size 1 })

/-- The search loop shared by `ClockReplacer::Pin` (lines 129-147) and
`ClockReplacer::Unpin` (lines 170-190): walk from `head_` (index 0) while
`cnt < clock_size_` looking for `frame_id`; returns the index of the found
node. A null node exits with no find. -/
def searchLoop (ring : List ListNode) (L : Nat) (fid : Int) : Nat → Nat → Option Nat
  | 0, _ => none
  | fuel+1, cnt =>
    if cnt % L < ring.length then
      if (ring.getD (cnt % L) default).frame_id = fid then some (cnt % L)
      else searchLoop ring L fid fuel (cnt+1)
    else none

/-- Model of `ClockReplacer::Pin` (clock_replacer.cpp:122-157): no-op when
`clock_size_ == 0` or the frame is not found; otherwise sets `pin_ = true`,
`refer_ = true` and increments `pin_size_` (unconditionally, even when the
node was already pinned). -/
def ClockPin (s : Clock) (frame_id : Int) : Clock :=
  if s.clock_size = 0 then s
  else
    match searchLoop s.ring s.ring.length frame_id s.clock_size 0 with
    | none => s
    | some t =>
      let e := s.ring.getD t default
      { s with ring := s.ring.set t { e with pin := true, refer := true },
               pin_size := (s.pin_size + 1) % U64 }

/-- Model of `ClockReplacer::Unpin` (clock_replacer.cpp:159-214). On an empty
replacer a fresh node (refer true, pin false) becomes the whole ring. If
found and pinned, the pin bit is cleared and `pin_size_` decremented; if
found unpinned, nothing happens. If not found and there is capacity, a
node is created with `next_ = head_` and hooked after `pre`, the last node
the search visited, i.e. index `(clock_size_ - 1) % L`; nodes after `pre`
drop out of the head-rooted ring when `pre` is not the last node. If not
found at full capacity the source throws (`none`); `none` likewise stands
for the null-`pre` dereference when `head_` is null with a nonzero
`clock_size_`. -/
def ClockUnpin (s : Clock) (frame_id : Int) : Option Clock :=
  if s.clock_size = 0 then
    some { s with ring := [⟨false, true, frame_id⟩], hand := 0,
                  clock_size := (s.clock_size + 1) % U64 }
  else
    match searchLoop s.ring s.ring.length frame_id s.clock_size 0 with
    | some t =>
      let e := s.ring.getD t default
      if e.pin then
        some { s with ring := s.ring.set t { e with pin := false },
                      pin_size := wsub s.pin_size 1 }
      else some s
    | none =>
      if s.clock_size < s.capacity then
        if s.ring.length = 0 then none
        else
          let p := (s.clock_size - 1) % s.ring.length
          some { s with ring := s.ring.take (p+1) ++ [⟨false, true, frame_id⟩],
                        clock_size := (s.clock_size + 1) % U64 }
      else none

/-- Model of `ClockReplacer::Size` (clock_replacer.cpp:216): `clock_size_ - pin_size_`
in `size_t` arithmetic. -/
def ClockSize (s : Clock) : Nat := wsub s.clock_size s.pin_size

/-- A call to the replacer's public interface. -/
inductive COp where
  | pin : Int → COp
  | unpin : Int → COp
  | victim : COp
deriving Repr, DecidableEq

/-- Run a sequence of replacer calls; `none` when `Unpin` throws (or hits
undefined behaviour). `Victim`'s out-parameter is discarded. -/
def crun : Clock → List COp → Option Clock
  | s, [] => some s
  | s, (COp.pin f) :: ops => crun (ClockPin s f) ops
  | s, (COp.unpin f) :: ops =>
    match ClockUnpin s f with
    | none => none
    | some s' => crun s' ops
  | s, COp.victim :: ops => crun (ClockVictim s).2 ops

/-- A freshly constructed `ClockReplacer(num_pages)`
(clock_replacer.cpp:19-23): both sizes zero, no nodes. -/
def clockInit (num_pages : Nat) : Clock :=
  { capacity := num_pages, clock_size := 0, pin_size := 0, ring := [], hand := 0 }

/-!
The buffer pool manager instance. A `Page` is a frame of the `pages_`
array; its 4 KiB byte buffer is abstracted to a single `Int` (`0` stands
for the zero-filled buffer, `DiskManager::ReadPage`/`WritePage` move the
whole value). The latches guard nothing in a sequential model and are
dropped. `page_table_` (`std::unordered_map<page_id_t, frame_id_t>`) is an
association list with unique keys; `find` is `lookup`, `erase(it)` removes
the key, `insert(begin(), pair)` inserts only when the key is absent.
Frame ids are the `Nat` indices of `pages`. The disk manager and the
`Page` class live outside the three given sources; they are modelled from
the spec (sections 4.2 and 6): `ReadPage` reads `disk pid`, `WritePage`
stores and logs the written value, `DeallocatePage` is logged. `page_id_t`
is `int32_t`; signed overflow of `next_page_id_ += num_instances_` is
undefined behaviour and, like a failing `assert`, makes the operation
return `none`.
-/

/-- Frame metadata and (abstracted) buffer of the `Page` class. -/
structure Page where
  page_id : Int
  pin_count : Int
  is_dirty : Bool
  data : Int
deriving Repr, DecidableEq

instance : Inhabited Page := ⟨⟨INVALID_PAGE_ID, 0, false, 0⟩⟩

/-- Modelled from the spec: the external disk manager (spec section 6)
with its current page contents and logs of `WritePage` and
`DeallocatePage` calls. -/
structure DiskM where
  disk : Int → Int
  writes : List (Int × Int)
  deallocs : List Int

/-- Model of `DiskManager::WritePage` (modelled from the spec): store the buffer and
log the call. -/
def dmWrite (d : DiskM) (pid v : Int) : DiskM :=
  { d with disk := fun q => if q = pid then v else d.disk q,
           writes := d.writes ++ [(pid, v)] }

/-- Model of `DiskManager::DeallocatePage` (modelled from the spec): log the
deallocation. -/
def dmDealloc (d : DiskM) (pid : Int) : DiskM :=
  { d with deallocs := d.deallocs ++ [pid] }

/-- State of a `BufferPoolManagerInstance`. -/
structure BPM where
  pool_size : Nat
  num_instances : Nat
  instance_index : Nat
  next_page_id : Int
  pages : List Page
  page_table : List (Int × Nat)
  free_list : List Nat
  replacer : Clock
  dm : DiskM

/-- Erase a key from the page table (`page_table_.erase(it)`). -/
def ptErase (pt : List (Int × Nat)) (pid : Int) : List (Int × Nat) :=
  pt.filter (fun kv => !(kv.1 == pid))

/-- Model of `page_table_.insert(page_table_.begin(), pair)`: a hinted
`unordered_map` insert, a no-op when the key is already present. -/
def ptInsert (pt : List (Int × Nat)) (pid : Int) (fid : Nat) : List (Int × Nat) :=
  if (pt.lookup pid).isSome then pt else (pid, fid) :: pt

/-- The value of `page_id % num_instances` in C++, where `page_id` is
`int32_t` and `num_instances_` is `uint32_t`: both operands convert to
`uint32_t` first. -/
def u32mod (x : Int) (n : Nat) : Nat := (x % (2 ^ 32 : Int)).toNat % n

/-- Model of `BufferPoolManagerInstance::AllocatePage`
(buffer_pool_manager_instance.cpp:278-283): snapshot `next_page_id_`,
advance it by `num_instances_`, validate the snapshot, return it.
`none` when the advance overflows `int32_t` (undefined behaviour) or when
`ValidatePageId`'s `assert` (lines 285-287) fails. -/
def AllocatePage (s : BPM) : Option (Int × BPM) :=
  let next := s.next_page_id
  if next + s.num_instances > INT_MAX then none
  else
    let s' := { s with next_page_id := next + s.num_instances }
    if u32mod next s.num_instances = s.instance_index then some (next, s')
    else none

/-- Common tail of `NewPgImp` once a frame `fid` has been acquired
(buffer_pool_manager_instance.cpp:133-147): `ReadPage(*page_id, page)`,
set `pin_count_ = 1`, `is_dirty_ = false`, `page_id_ = *page_id`, then
`replacer_->Unpin(frame_id)` (which can throw: `none`), `replacer_->Pin`,
and insert into the page table. -/
def newFill (s : BPM) (pid : Int) (fid : Nat) : Option (Option (Int × Nat) × BPM) :=
  let page0 := s.pages.getD fid default
  let page1 := { page0 with data := s.dm.disk pid, pin_count := 1,
                            is_dirty := false, page_id := pid }
  let s1 := { s with pages := s.pages.set fid page1 }
  match ClockUnpin s1.replacer fid with
  | none => none
  | some rep1 =>
    some (some (pid, fid), { s1 with replacer := ClockPin rep1 fid,
                                     page_table := ptInsert s1.page_table pid fid })

/-- Model of `BufferPoolManagerInstance::NewPgImp`
(buffer_pool_manager_instance.cpp:88-150). `AllocatePage` runs first
unconditionally. A frame comes from the free list, else from
`replacer_->Victim`; a victim frame's dirty contents are flushed and its
old page-table entry erased. With no frame the call returns the null page
(`(none, _)`) with only `next_page_id_` (and, in unreachable corrupt
replacer states, the replacer) changed. -/
def NewPgImp (s : BPM) : Option (Option (Int × Nat) × BPM) :=
  match AllocatePage s with
  | none => none
  | some (pid, s0) =>
    match s0.free_list with
    | fid :: rest => newFill { s0 with free_list := rest } pid fid
    | [] =>
      match ClockVictim s0.replacer with
      | (none, rep) => some (none, { s0 with replacer := rep })
      | (some vf, rep) =>
        let fid := vf.toNat
        let s1 := { s0 with replacer := rep }
        let old_page := s1.pages.getD fid default
        let s2 := if old_page.is_dirty then
            { s1 with pages := s1.pages.set fid { old_page with is_dirty := false },
                      dm := dmWrite s1.dm old_page.page_id old_page.data }
          else s1
        let s3 := { s2 with page_table := ptErase s2.page_table old_page.page_id }
        newFill s3 pid fid

/-- Common tail of `FetchPgImp`'s miss path once a frame `fid` has been
acquired (buffer_pool_manager_instance.cpp:186-218): flush the frame if
dirty, erase its old page-table entry, `ReadPage` the requested page,
set metadata, `Unpin` then `Pin` in the replacer, insert the mapping. -/
def fetchFill (s : BPM) (page_id : Int) (fid : Nat) : Option (Option Nat × BPM) :=
  let page := s.pages.getD fid default
  let s1 := if page.is_dirty then
      { s with pages := s.pages.set fid { page with is_dirty := false },
               dm := dmWrite s.dm page.page_id page.data }
    else s
  let s2 := { s1 with page_table := ptErase s1.page_table page.page_id }
  let page1 := { page with is_dirty := false, data := s2.dm.disk page_id,
                           page_id := page_id, pin_count := 1 }
  let s3 := { s2 with pages := s2.pages.set fid page1 }
  match ClockUnpin s3.replacer fid with
  | none => none
  | some rep1 =>
    some (some fid, { s3 with replacer := ClockPin rep1 fid,
                              page_table := ptInsert s3.page_table page_id fid })

/-- Model of `BufferPoolManagerInstance::FetchPgImp`
(buffer_pool_manager_instance.cpp:152-221). On a page-table hit the frame
is `Pin`ned in the replacer and returned — the frame's `pin_count_` is not
touched. On a miss a frame comes from the free list, else from the
replacer. -/
def FetchPgImp (s : BPM) (page_id : Int) : Option (Option Nat × BPM) :=
  match s.page_table.lookup page_id with
  | some fid => some (some fid, { s with replacer := ClockPin s.replacer fid })
  | none =>
    match s.free_list with
    | fid :: rest => fetchFill { s with free_list := rest } page_id fid
    | [] =>
      match ClockVictim s.replacer with
      | (some vf, rep) => fetchFill { s with replacer := rep } page_id vf.toNat
      | (none, rep) => some (none, { s with replacer := rep })

/-- Model of `BufferPoolManagerInstance::UnpinPgImp`
(buffer_pool_manager_instance.cpp:257-276): a page missing from the table
returns `true`; otherwise `is_dirty_` is overwritten by the argument, and
if `pin_count_ > 0` the frame is unpinned in the replacer, `pin_count_` is
set to zero and `true` returned, else `false`. -/
def UnpinPgImp (s : BPM) (page_id : Int) (is_dirty : Bool) : Option (Bool × BPM) :=
  match s.page_table.lookup page_id with
  | none => some (true, s)
  | some fid =>
    let page := s.pages.getD fid default
    let page1 := { page with is_dirty := is_dirty }
    let s1 := { s with pages := s.pages.set fid page1 }
    if page1.pin_count > (0 : Int) then
      match ClockUnpin s1.replacer fid with
      | none => none
      | some rep =>
        some (true, { s1 with replacer := rep,
                              pages := s1.pages.set fid { page1 with pin_count := 0 } })
    else some (false, s1)

/-- Model of `BufferPoolManagerInstance::FlushPgImp`
(buffer_pool_manager_instance.cpp:53-74): `INVALID_PAGE_ID` is rejected; a
resident dirty page is written to disk and its flag cleared; every path
returns `false`. -/
def FlushPgImp (s : BPM) (page_id : Int) : Bool × BPM :=
  if page_id = INVALID_PAGE_ID then (false, s)
  else
    match s.page_table.lookup page_id with
    | some fid =>
      let page := s.pages.getD fid default
      if page.is_dirty then
        (false, { s with dm := dmWrite s.dm page_id page.data,
                         pages := s.pages.set fid { page with is_dirty := false } })
      else (false, s)
    | none => (false, s)

/-- Model of `BufferPoolManagerInstance::DeletePgImp`
(buffer_pool_manager_instance.cpp:223-255): `INVALID_PAGE_ID` returns
`true`; a page id found in the table returns `true` immediately (line
236-238, the `it != page_table_.end()` test); a page id not found falls
through to `frame_id = it->second` on the end iterator, which is undefined
behaviour (`none`). The deletion block of lines 246-254 is unreachable. -/
def DeletePgImp (s : BPM) (page_id : Int) : Option (Bool × BPM) :=
  if page_id = INVALID_PAGE_ID then some (true, s)
  else
    match s.page_table.lookup page_id with
    | some _ => some (true, s)
    | none => none

/-- Iterate `AllocatePage`, collecting the returned page ids. -/
def allocRun (s : BPM) : Nat → Option (List Int × BPM)
  | 0 => some ([], s)
  | k+1 =>
    (AllocatePage s).bind
      (fun x => (allocRun x.2 k).map (fun y => (x.1 :: y.1, y.2)))

/-!
Specification-level description of `Victim`, used to state the (amended)
claim about it. The ring is well formed when `clock_size_` equals the
number of ring nodes, the hand is a valid index, and the node count is
below the `size_t` wrap. Visit `c` of the scan touches index
`(hand + c) % length`; `firstBreak` is the first visit at an unpinned
`refer == false` node, `clearUpTo k` clears the refer bit of the unpinned
`refer == true` nodes among the first `k` visits, and `mRun k` is the
running minimum (value, index, visit number) of `frame_id` over the
unpinned `refer == true` nodes of the first `k` visits, where only values
strictly below `INT_MAX` can be recorded. -/

/-- Well-formed replacer state (the representation invariant the
maintained pointer structure satisfies). -/
def wfClock (s : Clock) : Prop :=
  s.clock_size = s.ring.length ∧ (s.ring = [] ∨ s.hand < s.ring.length) ∧
    s.ring.length < U64

instance (s : Clock) : Decidable (wfClock s) := by
  unfold wfClock; infer_instance

/-- Entry touched by visit `c` of the clock scan. -/
def vEntry (s : Clock) (c : Nat) : ListNode :=
  s.ring.getD ((s.hand + c) % s.ring.length) default

/-- Does visit `c` hit an unpinned node whose refer bit is already false? -/
def brkAt (s : Clock) (c : Nat) : Bool := !(vEntry s c).pin && !(vEntry s c).refer

/-- First visit (if any) at which the scan stops with a victim by the
refer-bit rule. -/
def firstBreak (s : Clock) : Option Nat := (List.range s.ring.length).find? (brkAt s)

/-- The ring after the refer bits of the unpinned `refer == true` nodes
among the first `k` visits have been cleared. -/
def clearUpTo (s : Clock) : Nat → List ListNode
  | 0 => s.ring
  | k+1 =>
    let r := clearUpTo s k
    let i := (s.hand + k) % s.ring.length
    let e := s.ring.getD i default
    if e.pin = false ∧ e.refer = true then r.set i { e with refer := false } else r

/-- Running minimum of `frame_id` (with its ring index and visit number)
over the unpinned `refer == true` nodes of the first `k` visits; only
values strictly below `INT_MAX` are ever recorded, and on ties the
earliest visit is kept. -/
def mRun (s : Clock) : Nat → Option (Int × Nat × Nat)
  | 0 => none
  | k+1 =>
    if (s.ring.getD ((s.hand + k) % s.ring.length) default).pin = false ∧
        (s.ring.getD ((s.hand + k) % s.ring.length) default).refer = true then
      mUpd (s.ring.getD ((s.hand + k) % s.ring.length) default)
        ((s.hand + k) % s.ring.length) k (mRun s k)
    else mRun s k

/-- The amended claim about `Victim`, written out as a function of the
well-formed state: walk one revolution from the hand; stop at the first
unpinned `refer == false` node, clearing the refer bit of every unpinned
node passed over; if the revolution completes, take the unpinned node with
the smallest `frame_id` strictly below `INT_MAX` (earliest visit on ties),
the whole revolution having been cleared; with no candidate return false.
The chosen node is unlinked: a single-node ring empties; the head node is
dropped to its successor; a chosen node that was the very first visit and
is not the head is spliced out by re-linking the head to its successor,
which also detaches the nodes strictly between head and target; otherwise
only the chosen node is spliced out. `clock_size` drops by one and the
hand moves to the successor of the removed node (re-indexed in the new
list). -/
def victimSpec (s : Clock) : Option Int × Clock :=
  if s.ring = [] then (none, s)
  else
    let L := s.ring.length
    let tgt : Option (Nat × Nat) := match firstBreak s with
      | some c => some ((s.hand + c) % L, c)
      | none => (mRun s L).map (fun x => (x.2.1, x.2.2))
    let rc := match firstBreak s with
      | some c => clearUpTo s c
      | none => clearUpTo s L
    match tgt with
    | none => (none, { s with ring := rc })
    | some (t, c) =>
      let fid := (s.ring.getD t default).frame_id
      let ring' := if L = 1 then []
        else if t = 0 then rc.drop 1
        else if c = 0 then rc.take 1 ++ rc.drop (t+1)
        else rc.eraseIdx t
      let cur0 := if (firstBreak s).isSome then t else s.hand
      let cur1 := if cur0 = t then (t+1) % L else cur0
      let hand' := if L = 1 then 0
        else if t = 0 then cur1 - 1
        else if c = 0 then (if cur1 = 0 then 0 else if t + 1 ≤ cur1 then cur1 - t else 1)
        else if cur1 < t then cur1 else cur1 - 1
      (some fid, { s with ring := ring', hand := hand',
                          clock_size := s.clock_size - 1 })

/-- Number of pinned descriptors in a ring. -/
def countPinned (r : List ListNode) : Nat := (r.filter (fun e => e.pin)).length

/-!
Concrete states used by the counterexample and code-bug theorems below.
-/

/-- A disk whose every page reads as zero. -/
def dmZero : DiskM := ⟨fun _ => 0, [], []⟩

/-- A disk holding the value 99 at page 0. -/
def dmC6 : DiskM := ⟨fun pid => if pid = 0 then 99 else 0, [], []⟩

/-- Replacer of capacity 1 whose single frame 0 is pinned. -/
def clockOnePinned : Clock := ⟨1, 1, 1, [⟨true, true, 0⟩], 0⟩

/-- Pool of one frame holding page 7 at `pin_count` 2 with the dirty bit set. -/
def bpmC2 : BPM := ⟨1, 1, 0, 9, [⟨7, 2, true, 42⟩], [(7, 0)], [], clockOnePinned, dmZero⟩

/-- Pool of one frame holding page 7 at `pin_count` 1, clean. -/
def bpmC3 : BPM := ⟨1, 1, 0, 9, [⟨7, 1, false, 55⟩], [(7, 0)], [], clockOnePinned, dmZero⟩

/-- Pool of one frame holding the pinned page 7 (`pin_count` 1). -/
def bpmC4 : BPM := ⟨1, 1, 0, 9, [⟨7, 1, false, 55⟩], [(7, 0)], [], clockOnePinned, dmZero⟩

/-- Pool of one frame holding page 7, unpinned and dirty. -/
def bpmC5dirty : BPM := ⟨1, 1, 0, 9, [⟨7, 0, true, 42⟩], [(7, 0)], [], clockOnePinned, dmZero⟩

/-- Pool of one frame holding page 7, unpinned and clean. -/
def bpmC5clean : BPM := ⟨1, 1, 0, 9, [⟨7, 0, false, 42⟩], [(7, 0)], [], clockOnePinned, dmZero⟩

/-- Fresh pool of one frame: the free list holds frame 0, page id 0 is the
next to be allocated, and the disk holds 99 at page 0. -/
def bpmC6 : BPM := ⟨1, 1, 0, 0, [default], [], [0], clockInit 1, dmC6⟩

/-- Pool of one frame, fully pinned (free list empty, the only frame's page
pinned), about to allocate page id 5. -/
def bpmC10 : BPM := ⟨1, 1, 0, 5, [⟨7, 1, false, 55⟩], [(7, 0)], [], clockOnePinned, dmZero⟩

/-- Pool used to instantiate the allocation theorem: instance 2 of 4,
fresh (`next_page_id_ = instance_index`). -/
def bpmC7 : BPM := ⟨1, 4, 2, 2, [default], [], [0], clockInit 1, dmZero⟩

/-- Single unpinned ring node carrying `frame_id = INT_MAX`. -/
def clockImax : Clock := ⟨1, 1, 0, [⟨false, true, INT_MAX⟩], 0⟩

/-- Three unpinned referenced nodes `5, 7, 1` (head first) with the hand on
the node `1`, the smallest frame id. -/
def clockSplice : Clock := ⟨3, 3, 0, [⟨false, true, 5⟩, ⟨false, true, 7⟩, ⟨false, true, 1⟩], 2⟩

/-- Replacer call sequence, all frame ids within `[0, 5)`, that drives a
capacity-5 `ClockReplacer` into `Unpin`'s overflow branch: the third
`Victim` takes the minimum-fallback splice with a null `pre` and detaches
a live node from the ring while `clock_size_` keeps counting it, after
which four `Unpin` insertions exhaust `capacity_` with the ring still
missing a frame, and the final `Unpin 2` finds neither the frame nor
spare capacity and throws. -/
def c9ops : List COp :=
  [COp.unpin 0, COp.unpin 3, COp.unpin 4, COp.unpin 2, COp.unpin 1,
   COp.victim, COp.pin 3, COp.unpin 3, COp.pin 4, COp.unpin 4,
   COp.victim, COp.pin 3, COp.unpin 3, COp.pin 4, COp.unpin 4, COp.pin 1, COp.unpin 1,
   COp.victim, COp.unpin 4, COp.unpin 0, COp.unpin 1, COp.unpin 2]

/-!
Theorems. First the concrete counterexample and code-bug evaluations, then
the general characterisations.
-/

/-- C1 (counterexample): two reachable well-formed states on which `Victim`
deviates from the claim. On `clockImax` the ring holds one unpinned entry,
yet `Victim` returns false — the `INT_MAX` initialisation of
`min_frame_id` makes the strict comparison never record a frame id of
`INT_MAX`, so the fallback finds no minimum. On `clockSplice` the hand
starts on the minimum-id node `1`, so the fallback's recorded `pre` is
null and the splice re-links the head `5` directly past the target,
removing the never-chosen unpinned entry `7` from the ring as well. -/
theorem victim_deviates :
    ((ClockVictim clockImax).1 = none ∧ clockImax.ring.any (fun e => !e.pin)) ∧
    ((ClockVictim clockSplice).1 = some 1 ∧
      (ClockVictim clockSplice).2.ring = [⟨false, false, 5⟩] ∧
      (⟨false, true, 7⟩ : ListNode) ∈ clockSplice.ring ∧
      (ClockVictim clockSplice).2.ring.all (fun e => !(e.frame_id == 7))) := by
  decide

/-- C2: on the resident page 7 held at `pin_count` 2 with the dirty bit
set, `UnpinPgImp(7, false)` overwrites the dirty bit with the argument
(`false`, not `true ∨ false`), collapses `pin_count` from 2 straight to 0
instead of decrementing it to 1, unpins the frame in the replacer even
though a decrement-by-one would have left the count positive, and returns
true. -/
theorem unpin_page_overwrites_state :
    (UnpinPgImp bpmC2 7 false).map
      (fun r => (r.1, (r.2.pages.getD 0 default).pin_count,
                 (r.2.pages.getD 0 default).is_dirty, r.2.replacer.pin_size)) =
      some (true, 0, false, 0) := by
  rfl

/-- C3: fetching the resident page 7 returns the mapped frame 0 and `Pin`s
it in the replacer, but leaves the frame's `pin_count` at 1 instead of
incrementing it to 2 (and, the found node being already pinned, `Pin`
still pushes `pin_size_` to 2). -/
theorem fetch_hit_leaves_pin_count :
    (FetchPgImp bpmC3 7).map
      (fun r => (r.1, (r.2.pages.getD 0 default).pin_count, r.2.replacer.pin_size)) =
      some (some 0, 1, 2) := by
  rfl

/-- C4: deleting the resident page 7 with `pin_count = 1` returns `true`
and changes nothing — the inverted `it != page_table_.end()` test of
DeletePgImp takes the early `return true` exactly when the page is
resident, so the page stays in the table, the frame keeps the page, the
free list stays empty and no deallocation is logged; the claim requires
`false` for a pinned resident page. -/
theorem delete_page_inverted_check :
    (DeletePgImp bpmC4 7).map
      (fun r => (r.1, r.2.page_table, r.2.free_list,
                 (r.2.pages.getD 0 default).page_id, r.2.dm.deallocs)) =
      some (true, [(7, 0)], [], 7, []) := by
  rfl

/-- C5: flushing the resident dirty page 7 writes it to disk, clears the
flag and still returns `false`; flushing the resident clean page 7 writes
nothing (the flush is conditional on the dirty bit, not unconditional) and
returns `false`. The claim requires `true` for every resident page and an
unconditional write. -/
theorem flush_page_always_false :
    ((FlushPgImp bpmC5dirty 7).1 = false ∧
      (FlushPgImp bpmC5dirty 7).2.dm.writes = [(7, 42)] ∧
      ((FlushPgImp bpmC5dirty 7).2.pages.getD 0 default).is_dirty = false) ∧
    ((FlushPgImp bpmC5clean 7).1 = false ∧
      (FlushPgImp bpmC5clean 7).2.dm.writes = []) := by
  exact ⟨⟨rfl, rfl, rfl⟩, ⟨rfl, rfl⟩⟩

/-- C6: on a fresh pool whose disk holds 99 at page 0, `NewPgImp` takes
frame 0 from the free list and returns it for the new page 0 with
`pin_count = 1`, `is_dirty = false` and `page_id = 0` as claimed, but the
frame's buffer holds the value read from disk (99) rather than zeroes:
line 134 calls `ReadPage` where the function's own step comment says
"zero out memory". -/
theorem new_page_reads_disk_contents :
    (NewPgImp bpmC6).map (fun r => (r.1, r.2.pages.getD 0 default)) =
      some (some (0, 0), ⟨0, 1, false, 99⟩) := by
  rfl

/-- C9: the in-range call sequence `c9ops` on a freshly constructed
capacity-5 replacer reaches the `throw "TODO not implement"` overflow
branch of `Unpin` (the run aborts), so the branch is reachable even though
every frame id used lies in `[0, 5)`. -/
theorem unpin_overflow_reachable : crun (clockInit 5) c9ops = none := by
  rfl

/-- C8 (counterexample): starting from an empty capacity-3 replacer,
`Unpin 0` inserts frame 0 and `Pin 0` twice pins it twice; `pin_size_`
ends at 2 while the ring holds a single (pinned) entry, so
`Size() = clock_size_ - pin_size_` underflows `size_t` to `2^64 - 1`,
which is not the number (0) of unpinned ring entries. -/
theorem size_diverges_after_double_pin :
    (crun (clockInit 3) [COp.unpin 0, COp.pin 0, COp.pin 0]).map
      (fun s => (ClockSize s, (s.ring.filter (fun e => !e.pin)).length, s.pin_size)) =
      some (U64 - 1, 0, 2) := by
  rfl

/-!
Helper lemmas for the general characterisations.
-/

theorem wsub_one (a : Nat) (h1 : 1 ≤ a) (h2 : a < U64) : wsub a 1 = a - 1 := by
  unfold wsub
  have h3 : a + (U64 - 1) = U64 + (a - 1) := by unfold U64 at *; omega
  rw [h3, Nat.add_mod_left, Nat.mod_eq_of_lt (by omega)]

theorem visit_inj {L hand c c' : Nat} (hc : c < L) (hc' : c' < L)
    (h : (hand + c) % L = (hand + c') % L) : c = c' := by
  have h1 : c ≡ c' [MOD L] := Nat.ModEq.add_left_cancel (Nat.ModEq.refl hand) h
  have h2 : c % L = c' % L := h1
  rwa [Nat.mod_eq_of_lt hc, Nat.mod_eq_of_lt hc'] at h2

theorem clearUpTo_length (s : Clock) (k : Nat) :
    (clearUpTo s k).length = s.ring.length := by
  induction k with
  | zero => rfl
  | succ k ih =>
    simp only [clearUpTo]
    split
    · rw [List.length_set, ih]
    · exact ih

theorem clearUpTo_untouched (s : Clock) (k : Nat) (j : Nat)
    (hj : ∀ c < k, (s.hand + c) % s.ring.length ≠ j) :
    (clearUpTo s k)[j]? = s.ring[j]? := by
  induction k with
  | zero => rfl
  | succ k ih =>
    have ih' := ih (fun c hc => hj c (Nat.lt_succ_of_lt hc))
    simp only [clearUpTo]
    split
    · rw [List.getElem?_set_ne (hj k (Nat.lt_succ_self k)), ih']
    · exact ih'

theorem clearUpTo_keeps (s : Clock) (k j : Nat) :
    ((clearUpTo s k).getD j default).frame_id = (s.ring.getD j default).frame_id := by
  induction k with
  | zero => rfl
  | succ k ih =>
    simp only [clearUpTo]
    split
    · by_cases hij : (s.hand + k) % s.ring.length = j
      · subst hij
        have hlt : (s.hand + k) % s.ring.length < (clearUpTo s k).length := by
          rw [clearUpTo_length]
          rcases Nat.eq_zero_or_pos s.ring.length with h0 | h0
          · rename_i hcond
            exfalso
            rw [List.length_eq_zero.mp h0, List.getD_nil] at hcond
            exact absurd hcond.2 (by decide)
          · exact Nat.mod_lt _ h0
        rw [List.getD_eq_getElem?_getD, List.getElem?_set_self hlt]
        rfl
      · rw [List.getD_eq_getElem?_getD, List.getElem?_set_ne hij,
          ← List.getD_eq_getElem?_getD]
        exact ih
    · exact ih

theorem clearUpTo_read (s : Clock) (k : Nat) (hk : k < s.ring.length) :
    (clearUpTo s k).getD ((s.hand + k) % s.ring.length) default =
      s.ring.getD ((s.hand + k) % s.ring.length) default := by
  rw [List.getD_eq_getElem?_getD, clearUpTo_untouched s k _
    (fun c hc h => absurd (visit_inj (Nat.lt_trans hc hk) hk h) (Nat.ne_of_lt hc)),
    ← List.getD_eq_getElem?_getD]

theorem victimLoop_eq (s : Clock) (hh : s.hand < s.ring.length) (fuel : Nat) :
    ∀ cnt, cnt + fuel = s.ring.length →
      victimLoop s.ring.length s.hand fuel cnt (clearUpTo s cnt) (mRun s cnt) =
        match (List.range' cnt fuel).find? (brkAt s) with
        | some c => (clearUpTo s c, some ((s.hand + c) % s.ring.length, c), mRun s c)
        | none => (clearUpTo s s.ring.length, none, mRun s s.ring.length) := by
  have hL : 0 < s.ring.length := Nat.lt_of_le_of_lt (Nat.zero_le _) hh
  induction fuel with
  | zero =>
    intro cnt h
    have hc : cnt = s.ring.length := by omega
    subst hc
    rfl
  | succ fuel ih =>
    intro cnt h
    have hcnt : cnt < s.ring.length := by omega
    have hi : (s.hand + cnt) % s.ring.length < s.ring.length := Nat.mod_lt _ hL
    have hguard : (s.hand + cnt) % s.ring.length < (clearUpTo s cnt).length := by
      rw [clearUpTo_length]; exact hi
    have hstep := ih (cnt + 1) (by omega)
    simp only [victimLoop, if_pos hguard, clearUpTo_read s cnt hcnt, List.range'_succ]
    have hbrk : brkAt s cnt =
        (!(s.ring.getD ((s.hand + cnt) % s.ring.length) default).pin &&
         !(s.ring.getD ((s.hand + cnt) % s.ring.length) default).refer) := rfl
    by_cases hp : (s.ring.getD ((s.hand + cnt) % s.ring.length) default).pin
    · have hb : brkAt s cnt = false := by rw [hbrk, hp]; rfl
      rw [if_pos hp, List.find?_cons_of_neg _ (by rw [hb]; simp)]
      have hcl : clearUpTo s (cnt + 1) = clearUpTo s cnt := by
        simp only [clearUpTo]
        rw [if_neg]
        rw [hp]
        simp
      have hm : mRun s (cnt + 1) = mRun s cnt := by
        simp only [mRun]
        rw [if_neg]
        rw [hp]
        simp
      rw [← hcl, ← hm]
      exact hstep
    · rw [if_neg hp]
      by_cases hr : (s.ring.getD ((s.hand + cnt) % s.ring.length) default).refer = false
      · have hb : brkAt s cnt = true := by
          rw [hbrk]
          simp only [Bool.not_eq_true] at hp
          rw [hp, hr]
          rfl
        rw [if_pos hr, List.find?_cons_of_pos _ hb]
      · have hb : brkAt s cnt = false := by
          rw [hbrk]
          simp only [Bool.not_eq_true] at hp
          simp only [Bool.not_eq_false] at hr
          rw [hp, hr]
          rfl
        rw [if_neg hr, List.find?_cons_of_neg _ (by rw [hb]; simp)]
        simp only [Bool.not_eq_true] at hp
        simp only [Bool.not_eq_false] at hr
        have hcl : clearUpTo s (cnt + 1) =
            (clearUpTo s cnt).set ((s.hand + cnt) % s.ring.length)
              { s.ring.getD ((s.hand + cnt) % s.ring.length) default with refer := false } := by
          simp only [clearUpTo]
          rw [if_pos ⟨hp, hr⟩]
        have hm : mRun s (cnt + 1) =
            mUpd (s.ring.getD ((s.hand + cnt) % s.ring.length) default)
              ((s.hand + cnt) % s.ring.length) cnt (mRun s cnt) := by
          simp only [mRun]
          rw [if_pos ⟨hp, hr⟩]
        rw [← hcl, ← hm]
        exact hstep

theorem victim_eq_spec_aux (s : Clock) (hw : wfClock s) : ClockVictim s = victimSpec s := by
  obtain ⟨hcs, hor, hU⟩ := hw
  by_cases hnil : s.ring = []
  · unfold ClockVictim victimSpec
    rw [if_pos hnil, if_pos hnil]
  · have hh : s.hand < s.ring.length := hor.resolve_left hnil
    have hL : 0 < s.ring.length := List.length_pos.mpr hnil
    have h1L : 1 ≤ s.ring.length := hL
    have hmod : (s.hand + s.ring.length) % s.ring.length = s.hand := by
      rw [Nat.add_mod_right]; exact Nat.mod_eq_of_lt hh
    have hloop := victimLoop_eq s hh s.ring.length 0 (by omega)
    rw [← List.range_eq_range'] at hloop
    have hfb' : List.find? (brkAt s) (List.range s.ring.length) = firstBreak s := rfl
    have hcl0 : clearUpTo s 0 = s.ring := rfl
    have hm0 : mRun s 0 = none := rfl
    rw [hfb', hcl0, hm0] at hloop
    cases hfb : firstBreak s with
    | none =>
      rw [hfb] at hloop
      cases hm : mRun s s.ring.length with
      | none =>
        simp only [ClockVictim, victimSpec, if_neg hnil, hcs, hloop, hfb, hm, hmod,
          Option.map_none', Option.isSome_none]
      | some x =>
        obtain ⟨f, j, c⟩ := x
        simp only [ClockVictim, victimSpec, if_neg hnil, hcs, hloop, hfb, hm, hmod,
          Option.map_some', Option.isSome_none, if_true, if_false, clearUpTo_keeps,
          wsub_one _ h1L hU]
    | some c =>
      rw [hfb] at hloop
      simp only [ClockVictim, victimSpec, if_neg hnil, hcs, hloop, hfb,
        Option.isSome_some, if_true, if_false, clearUpTo_keeps, wsub_one _ h1L hU]

theorem firstBreak_none_iff (s : Clock) :
    firstBreak s = none ↔ ∀ c < s.ring.length, brkAt s c = false := by
  unfold firstBreak
  rw [List.find?_eq_none]
  constructor
  · intro h c hc
    have := h c (List.mem_range.mpr hc)
    simpa using this
  · intro h c hc
    rw [h c (List.mem_range.mp hc)]
    simp

theorem brkAt_false_iff (s : Clock) (c : Nat) :
    brkAt s c = false ↔
      ((vEntry s c).pin = true ∨ (vEntry s c).refer = true) := by
  unfold brkAt
  cases hp : (vEntry s c).pin <;> cases hr : (vEntry s c).refer <;> simp

theorem vEntry_mem (s : Clock) (hL : 0 < s.ring.length) (c : Nat) :
    vEntry s c ∈ s.ring := by
  have hi : (s.hand + c) % s.ring.length < s.ring.length := Nat.mod_lt _ hL
  unfold vEntry
  rw [List.getD_eq_getElem?_getD, List.getElem?_eq_getElem hi, Option.getD_some]
  exact List.getElem_mem hi

theorem visits_cover (s : Clock) (hh : s.hand < s.ring.length) (e : ListNode)
    (he : e ∈ s.ring) :
    ∃ c < s.ring.length, vEntry s c = e := by
  obtain ⟨j, hj, rfl⟩ := List.mem_iff_getElem.mp he
  have hL : 0 < s.ring.length := Nat.lt_of_le_of_lt (Nat.zero_le _) hh
  refine ⟨(j + s.ring.length - s.hand) % s.ring.length, Nat.mod_lt _ hL, ?_⟩
  have e1 : (j + s.ring.length - s.hand) % s.ring.length ≡
      (j + s.ring.length - s.hand) [MOD s.ring.length] := Nat.mod_modEq _ _
  have e2 : s.hand + (j + s.ring.length - s.hand) % s.ring.length ≡
      s.hand + (j + s.ring.length - s.hand) [MOD s.ring.length] :=
    Nat.ModEq.add_left _ e1
  have e3 : s.hand + (j + s.ring.length - s.hand) = j + s.ring.length := by omega
  have e4 : (s.hand + (j + s.ring.length - s.hand) % s.ring.length) % s.ring.length =
      (s.hand + (j + s.ring.length - s.hand)) % s.ring.length := e2
  rw [e3] at e4
  unfold vEntry
  rw [e4, Nat.add_mod_right, Nat.mod_eq_of_lt hj]
  rw [List.getD_eq_getElem?_getD, List.getElem?_eq_getElem hj, Option.getD_some]

theorem mRun_none_iff (s : Clock) (k : Nat) :
    mRun s k = none ↔
      ∀ c < k, ¬((vEntry s c).pin = false ∧ (vEntry s c).refer = true ∧
        (vEntry s c).frame_id < INT_MAX) := by
  induction k with
  | zero => simp [mRun]
  | succ k ih =>
    rw [Nat.forall_lt_succ]
    unfold mRun vEntry
    unfold vEntry at ih
    constructor
    · intro h
      by_cases hcond : (s.ring.getD ((s.hand + k) % s.ring.length) default).pin = false ∧
          (s.ring.getD ((s.hand + k) % s.ring.length) default).refer = true
      · rw [if_pos hcond] at h
        cases hm : mRun s k with
        | none =>
          rw [hm] at h
          simp only [mUpd] at h
          refine ⟨ih.mp hm, fun hcon => ?_⟩
          rw [if_pos hcon.2.2] at h
          exact Option.noConfusion h
        | some x =>
          obtain ⟨f, j, c⟩ := x
          rw [hm] at h
          simp only [mUpd] at h
          exfalso
          split at h <;> exact Option.noConfusion h
      · rw [if_neg hcond] at h
        exact ⟨ih.mp h, fun hcon => hcond ⟨hcon.1, hcon.2.1⟩⟩
    · intro hp
      obtain ⟨h1, h2⟩ := hp
      by_cases hcond : (s.ring.getD ((s.hand + k) % s.ring.length) default).pin = false ∧
          (s.ring.getD ((s.hand + k) % s.ring.length) default).refer = true
      · rw [if_pos hcond, ih.mpr h1]
        simp only [mUpd]
        rw [if_neg (fun hlt => h2 ⟨hcond.1, hcond.2, hlt⟩)]
      · rw [if_neg hcond]
        exact ih.mpr h1

theorem mRun_sound (s : Clock) (k : Nat) :
    ∀ f j c, mRun s k = some (f, j, c) →
      c < k ∧ j = (s.hand + c) % s.ring.length ∧
      (vEntry s c).pin = false ∧ (vEntry s c).refer = true ∧
      (vEntry s c).frame_id = f ∧ f < INT_MAX := by
  induction k with
  | zero => intro f j c h; exact absurd h (by simp [mRun])
  | succ k ih =>
    intro f j c h
    unfold mRun at h
    by_cases hcond : (s.ring.getD ((s.hand + k) % s.ring.length) default).pin = false ∧
        (s.ring.getD ((s.hand + k) % s.ring.length) default).refer = true
    · rw [if_pos hcond] at h
      cases hm : mRun s k with
      | none =>
        rw [hm] at h
        simp only [mUpd] at h
        by_cases hlt : (s.ring.getD ((s.hand + k) % s.ring.length) default).frame_id <
            INT_MAX
        · rw [if_pos hlt] at h
          simp only [Option.some.injEq, Prod.mk.injEq] at h
          obtain ⟨hf, hj, hc⟩ := h
          subst hc
          exact ⟨Nat.lt_succ_self k, hj.symm,
            hcond.1, hcond.2, hf, hf ▸ hlt⟩
        · rw [if_neg hlt] at h
          exact Option.noConfusion h
      | some x =>
        obtain ⟨g, j0, c0⟩ := x
        rw [hm] at h
        simp only [mUpd] at h
        by_cases hlt : (s.ring.getD ((s.hand + k) % s.ring.length) default).frame_id < g
        · rw [if_pos hlt] at h
          simp only [Option.some.injEq, Prod.mk.injEq] at h
          obtain ⟨hf, hj, hc⟩ := h
          subst hc
          obtain ⟨_, _, _, _, _, hg⟩ := ih g j0 c0 hm
          exact ⟨Nat.lt_succ_self k, hj.symm,
            hcond.1, hcond.2, hf, hf ▸ lt_trans hlt hg⟩
        · rw [if_neg hlt] at h
          simp only [Option.some.injEq, Prod.mk.injEq] at h
          obtain ⟨hf, hj, hc⟩ := h
          subst hf; subst hj; subst hc
          obtain ⟨h1, h2⟩ := ih g j0 c0 hm
          exact ⟨Nat.lt_succ_of_lt h1, h2⟩
    · rw [if_neg hcond] at h
      obtain ⟨h1, h2⟩ := ih f j c h
      exact ⟨Nat.lt_succ_of_lt h1, h2⟩

theorem mRun_min (s : Clock) (k : Nat) :
    ∀ f j c, mRun s k = some (f, j, c) →
      ∀ c' < k, (vEntry s c').pin = false → (vEntry s c').refer = true →
        f ≤ (vEntry s c').frame_id := by
  induction k with
  | zero => intro f j c h; exact absurd h (by simp [mRun])
  | succ k ih =>
    intro f j c h c' hc' hp hr
    have hIM := (mRun_sound s (k+1) f j c h).2.2.2.2.2
    unfold mRun at h
    by_cases hcond : (s.ring.getD ((s.hand + k) % s.ring.length) default).pin = false ∧
        (s.ring.getD ((s.hand + k) % s.ring.length) default).refer = true
    · rw [if_pos hcond] at h
      rcases Nat.lt_succ_iff_lt_or_eq.mp hc' with hlt' | heq'
      · cases hm : mRun s k with
        | none =>
          have hall := (mRun_none_iff s k).mp hm c' hlt'
          have hge : INT_MAX ≤ (vEntry s c').frame_id := by
            by_contra hx
            push_neg at hx
            exact hall ⟨hp, hr, hx⟩
          exact le_trans (le_of_lt hIM) hge
        | some x =>
          obtain ⟨g, j0, c0⟩ := x
          rw [hm] at h
          simp only [mUpd] at h
          have hgle := ih g j0 c0 hm c' hlt' hp hr
          by_cases hlt : (s.ring.getD ((s.hand + k) % s.ring.length) default).frame_id < g
          · rw [if_pos hlt] at h
            simp only [Option.some.injEq, Prod.mk.injEq] at h
            obtain ⟨hf, -, -⟩ := h
            subst hf
            exact le_trans (le_of_lt hlt) hgle
          · rw [if_neg hlt] at h
            simp only [Option.some.injEq, Prod.mk.injEq] at h
            obtain ⟨hf, -, -⟩ := h
            subst hf
            exact hgle
      · subst heq'
        unfold vEntry
        cases hm : mRun s c' with
        | none =>
          rw [hm] at h
          simp only [mUpd] at h
          by_cases hlt : (s.ring.getD ((s.hand + c') % s.ring.length) default).frame_id <
              INT_MAX
          · rw [if_pos hlt] at h
            simp only [Option.some.injEq, Prod.mk.injEq] at h
            obtain ⟨hf, -, -⟩ := h
            subst hf
            exact le_refl _
          · rw [if_neg hlt] at h
            exact absurd h (by simp)
        | some x =>
          obtain ⟨g, j0, c0⟩ := x
          rw [hm] at h
          simp only [mUpd] at h
          by_cases hlt : (s.ring.getD ((s.hand + c') % s.ring.length) default).frame_id < g
          · rw [if_pos hlt] at h
            simp only [Option.some.injEq, Prod.mk.injEq] at h
            obtain ⟨hf, -, -⟩ := h
            subst hf
            exact le_refl _
          · rw [if_neg hlt] at h
            simp only [Option.some.injEq, Prod.mk.injEq] at h
            obtain ⟨hf, -, -⟩ := h
            subst hf
            exact le_of_not_lt hlt
    · rw [if_neg hcond] at h
      rcases Nat.lt_succ_iff_lt_or_eq.mp hc' with hlt' | heq'
      · exact ih f j c h c' hlt' hp hr
      · subst heq'
        unfold vEntry at hp hr
        exact absurd ⟨hp, hr⟩ hcond

theorem victimSpec_none_iff (s : Clock) (hnil : s.ring ≠ []) :
    (victimSpec s).1 = none ↔ firstBreak s = none ∧ mRun s s.ring.length = none := by
  unfold victimSpec
  rw [if_neg hnil]
  cases hfb : firstBreak s with
  | none =>
    cases hm : mRun s s.ring.length with
    | none => simp [hm]
    | some x =>
      obtain ⟨f, j, c⟩ := x
      simp [hm]
  | some c => simp

theorem victimSpec_brk (s : Clock) (hnil : s.ring ≠ []) (c : Nat)
    (hfb : firstBreak s = some c) :
    (victimSpec s).1 = some ((s.ring.getD ((s.hand + c) % s.ring.length) default).frame_id) ∧
    (victimSpec s).2.clock_size = s.clock_size - 1 := by
  unfold victimSpec
  rw [if_neg hnil]
  simp only [hfb]
  simp

theorem victimSpec_fall (s : Clock) (hnil : s.ring ≠ []) (f0 : Int) (j c : Nat)
    (hfb : firstBreak s = none) (hm : mRun s s.ring.length = some (f0, j, c)) :
    (victimSpec s).1 = some ((s.ring.getD j default).frame_id) ∧
    (victimSpec s).2.clock_size = s.clock_size - 1 := by
  unfold victimSpec
  rw [if_neg hnil]
  simp only [hfb, hm]
  simp

theorem clearUpTo_of_all_pinned (s : Clock) (hall : ∀ e ∈ s.ring, e.pin = true)
    (k : Nat) : clearUpTo s k = s.ring := by
  induction k with
  | zero => rfl
  | succ k ih =>
    simp only [clearUpTo]
    rw [if_neg, ih]
    intro hcon
    rcases Nat.eq_zero_or_pos s.ring.length with h0 | h0
    · rw [List.length_eq_zero.mp h0, List.getD_nil] at hcon
      exact absurd hcon.2 (by decide)
    · have hmem : s.ring.getD ((s.hand + k) % s.ring.length) default ∈ s.ring :=
        vEntry_mem s h0 k
      rw [hall _ hmem] at hcon
      exact Bool.noConfusion hcon.1

theorem victim_none_state (r : Clock) (hw : wfClock r)
    (hs : ∀ e ∈ r.ring, e.frame_id < INT_MAX)
    (hv : (ClockVictim r).1 = none) : ClockVictim r = (none, r) := by
  have hA := victim_eq_spec_aux r hw
  obtain ⟨hcs, hor, hU⟩ := hw
  by_cases hnil : r.ring = []
  · rw [hA]
    unfold victimSpec
    rw [if_pos hnil]
  · have hh : r.hand < r.ring.length := hor.resolve_left hnil
    have hL : 0 < r.ring.length := List.length_pos.mpr hnil
    rw [hA] at hv ⊢
    obtain ⟨hfb, hm⟩ := (victimSpec_none_iff r hnil).mp hv
    have hall : ∀ e ∈ r.ring, e.pin = true := by
      intro e he
      obtain ⟨c, hc, rfl⟩ := visits_cover r hh e he
      have hb := (brkAt_false_iff r c).mp ((firstBreak_none_iff r).mp hfb c hc)
      have hmc := (mRun_none_iff r _).mp hm c hc
      by_cases hp : (vEntry r c).pin = true
      · exact hp
      · have hp' : (vEntry r c).pin = false := by
          cases hx : (vEntry r c).pin
          · rfl
          · exact absurd hx hp
        have hr : (vEntry r c).refer = true := hb.resolve_left hp
        exact absurd ⟨hp', hr, hs _ (vEntry_mem r hL c)⟩ hmc
    unfold victimSpec
    rw [if_neg hnil]
    simp only [hfb, hm]
    simp only [Option.map_none']
    rw [clearUpTo_of_all_pinned r hall]

/-- C1 (amended): on every well-formed replacer state, `Victim` behaves
exactly as `victimSpec` describes — one revolution from the hand, stopping
at the first unpinned `refer == false` node and clearing the refer bit of
every unpinned node passed over; if the revolution completes, the unpinned
node with the smallest `frame_id` is chosen, except that a node whose
`frame_id` equals `INT_MAX` can never be recorded as the minimum; the
chosen node is unlinked from the ring, but when it is the node the hand
started on and it is not the head, the splice re-attaches the head
directly to the chosen node's successor, detaching every node strictly
between head and target as well; `clock_size` is decremented and the
chosen `frame_id` is written out. Consequently `Victim` returns false iff
every ring node is pinned or is a referenced node with `frame_id ≥
INT_MAX` (not, as claimed, iff the ring has no unpinned entry), and in a
completed revolution the chosen id is the minimum over the unpinned
entries. -/
theorem victim_spec_characterisation (s : Clock) (hw : wfClock s) :
    ClockVictim s = victimSpec s ∧
    ((ClockVictim s).1 = none ↔
      ∀ e ∈ s.ring, e.pin = true ∨ (e.refer = true ∧ INT_MAX ≤ e.frame_id)) ∧
    (firstBreak s = none → ∀ f, (ClockVictim s).1 = some f →
      (∃ e ∈ s.ring, e.pin = false ∧ e.frame_id = f) ∧
      ∀ e ∈ s.ring, e.pin = false → f ≤ e.frame_id) ∧
    (∀ f, (ClockVictim s).1 = some f →
      (ClockVictim s).2.clock_size = s.clock_size - 1) := by
  have hA := victim_eq_spec_aux s hw
  obtain ⟨hcs, hor, hU⟩ := hw
  refine ⟨hA, ?_, ?_, ?_⟩
  · rw [hA]
    by_cases hnil : s.ring = []
    · constructor
      · intro _ e he
        rw [hnil] at he
        cases he
      · intro _
        unfold victimSpec
        rw [if_pos hnil]
    · have hh : s.hand < s.ring.length := hor.resolve_left hnil
      have hL : 0 < s.ring.length := List.length_pos.mpr hnil
      rw [victimSpec_none_iff s hnil, firstBreak_none_iff, mRun_none_iff]
      constructor
      · intro hp e he
        obtain ⟨h1, h2⟩ := hp
        obtain ⟨c, hc, rfl⟩ := visits_cover s hh e he
        have hb := (brkAt_false_iff s c).mp (h1 c hc)
        have hm := h2 c hc
        by_cases hpin : (vEntry s c).pin = true
        · exact Or.inl hpin
        · have hp' : (vEntry s c).pin = false := by
            cases hx : (vEntry s c).pin
            · rfl
            · exact absurd hx hpin
          have hr : (vEntry s c).refer = true := hb.resolve_left hpin
          refine Or.inr ⟨hr, ?_⟩
          by_contra hlt
          push_neg at hlt
          exact hm ⟨hp', hr, hlt⟩
      · intro h
        constructor
        · intro c hc
          rcases h _ (vEntry_mem s hL c) with hpin | ⟨hr, _⟩
          · exact (brkAt_false_iff s c).mpr (Or.inl hpin)
          · exact (brkAt_false_iff s c).mpr (Or.inr hr)
        · intro c hc hcon
          rcases h _ (vEntry_mem s hL c) with hpin | ⟨_, hge⟩
          · rw [hcon.1] at hpin
            exact Bool.noConfusion hpin
          · exact absurd hcon.2.2 (not_lt.mpr hge)
  · intro hfb f hsome
    rw [hA] at hsome
    by_cases hnil : s.ring = []
    · unfold victimSpec at hsome
      rw [if_pos hnil] at hsome
      exact Option.noConfusion hsome
    · have hh : s.hand < s.ring.length := hor.resolve_left hnil
      have hL : 0 < s.ring.length := List.length_pos.mpr hnil
      cases hm : mRun s s.ring.length with
      | none =>
        rw [(victimSpec_none_iff s hnil).mpr ⟨hfb, hm⟩] at hsome
        exact Option.noConfusion hsome
      | some x =>
        obtain ⟨f0, j, c⟩ := x
        have hv := victimSpec_fall s hnil f0 j c hfb hm
        rw [hv.1] at hsome
        have hf : f = (s.ring.getD j default).frame_id := (Option.some.inj hsome).symm
        obtain ⟨hck, hj, hp0, hr0, hfid, hIM⟩ := mRun_sound s s.ring.length f0 j c hm
        have hveq : vEntry s c = s.ring.getD j default := by
          unfold vEntry
          rw [hj]
        have hff0 : f = f0 := by
          rw [hf, ← hveq, hfid]
        constructor
        · refine ⟨s.ring.getD j default, ?_, ?_, hf.symm⟩
          · rw [← hveq]
            exact vEntry_mem s hL c
          · rw [← hveq]
            exact hp0
        · intro e he hep
          obtain ⟨c', hc', rfl⟩ := visits_cover s hh e he
          have hr' : (vEntry s c').refer = true := by
            have hb := (brkAt_false_iff s c').mp ((firstBreak_none_iff s).mp hfb c' hc')
            refine hb.resolve_left (fun hptrue => ?_)
            rw [hep] at hptrue
            exact Bool.noConfusion hptrue
          rw [hff0]
          exact mRun_min s s.ring.length f0 j c hm c' hc' hep hr'
  · intro f hsome
    rw [hA] at hsome ⊢
    by_cases hnil : s.ring = []
    · unfold victimSpec at hsome
      rw [if_pos hnil] at hsome
      exact Option.noConfusion hsome
    · cases hfb : firstBreak s with
      | some c => exact (victimSpec_brk s hnil c hfb).2
      | none =>
        cases hm : mRun s s.ring.length with
        | none =>
          rw [(victimSpec_none_iff s hnil).mpr ⟨hfb, hm⟩] at hsome
          exact Option.noConfusion hsome
        | some x =>
          obtain ⟨f0, j, c⟩ := x
          exact (victimSpec_fall s hnil f0 j c hfb hm).2

theorem searchLoop_eq (ring : List ListNode) (fid : Int) (fuel : Nat) :
    ∀ cnt, cnt + fuel = ring.length →
      searchLoop ring ring.length fid fuel cnt =
        (List.range' cnt fuel).find?
          (fun c => decide ((ring.getD c default).frame_id = fid)) := by
  induction fuel with
  | zero =>
    intro cnt h
    rfl
  | succ fuel ih =>
    intro cnt h
    have hcnt : cnt < ring.length := by omega
    have hmod : cnt % ring.length = cnt := Nat.mod_eq_of_lt hcnt
    simp only [searchLoop, hmod, List.range'_succ]
    rw [if_pos hcnt]
    by_cases hf : (ring.getD cnt default).frame_id = fid
    · rw [if_pos hf, List.find?_cons_of_pos _ (by simp only [decide_eq_true_eq]; exact hf)]
    · rw [if_neg hf, List.find?_cons_of_neg _ (by simp only [decide_eq_true_eq]; exact hf)]
      exact ih (cnt + 1) (by omega)

theorem find?_range'_some (p : Nat → Bool) (n : Nat) :
    ∀ a t, a ≤ t → t < a + n → p t = true → (∀ u, a ≤ u → u < t → p u = false) →
      (List.range' a n).find? p = some t := by
  induction n with
  | zero =>
    intro a t h1 h2 hp hmin
    omega
  | succ n ih =>
    intro a t h1 h2 hp hmin
    rw [List.range'_succ]
    by_cases hat : a = t
    · subst hat
      rw [List.find?_cons_of_pos _ hp]
    · have hpa : p a = false := hmin a le_rfl (by omega)
      rw [List.find?_cons_of_neg _ (by simp [hpa])]
      exact ih (a + 1) t (by omega) (by omega) hp (fun u hu1 hu2 => hmin u (by omega) hu2)

theorem countPinned_set (r : List ListNode) : ∀ (t : Nat) (v : ListNode),
    (r.getD t default).pin = v.pin → countPinned (r.set t v) = countPinned r := by
  induction r with
  | nil =>
    intro t v h
    rfl
  | cons a r ih =>
    intro t v h
    cases t with
    | zero =>
      have h0 : (a :: r).getD 0 default = a := rfl
      rw [h0] at h
      show countPinned (v :: r) = countPinned (a :: r)
      unfold countPinned
      rw [List.filter_cons, List.filter_cons]
      cases hv : v.pin
      · rw [h, hv]
        simp
      · rw [h, hv]
        simp
    | succ t =>
      have h0 : (a :: r).getD (t + 1) default = r.getD t default := rfl
      rw [h0] at h
      show countPinned (a :: r.set t v) = countPinned (a :: r)
      unfold countPinned
      rw [List.filter_cons, List.filter_cons]
      have hr := ih t v h
      unfold countPinned at hr
      cases ha : a.pin
      · simpa using hr
      · simpa using hr

theorem allocRun_closed (k : Nat) : ∀ (s : BPM) (ids : List Int) (s' : BPM),
    allocRun s k = some (ids, s') →
    ids = (List.range k).map
      (fun m => s.next_page_id + (m * s.num_instances : Nat)) ∧
    (∀ pid ∈ ids, u32mod pid s.num_instances = s.instance_index) := by
  induction k with
  | zero =>
    intro s ids s' h
    simp only [allocRun, Option.some.injEq, Prod.mk.injEq] at h
    obtain ⟨h1, _⟩ := h
    subst h1
    simp
  | succ k ih =>
    intro s ids s' h
    unfold allocRun at h
    cases halloc : AllocatePage s with
    | none =>
      rw [halloc] at h
      exact Option.noConfusion h
    | some x =>
      obtain ⟨pid, s1⟩ := x
      rw [halloc, Option.some_bind] at h
      cases hrun : allocRun s1 k with
      | none =>
        rw [hrun] at h
        exact Option.noConfusion h
      | some y =>
        obtain ⟨ids1, s2⟩ := y
        rw [hrun] at h
        simp only [Option.map_some', Option.some.injEq, Prod.mk.injEq] at h
        obtain ⟨hids, _⟩ := h
        subst hids
        have hA : pid = s.next_page_id ∧
            s1 = { s with next_page_id := s.next_page_id + s.num_instances } ∧
            u32mod s.next_page_id s.num_instances = s.instance_index := by
          simp only [AllocatePage] at halloc
          split at halloc
          · exact Option.noConfusion halloc
          · split at halloc
            · rename_i hok
              simp only [Option.some.injEq, Prod.mk.injEq] at halloc
              exact ⟨halloc.1.symm, halloc.2.symm, hok⟩
            · exact Option.noConfusion halloc
        obtain ⟨hpid, hs1, hok⟩ := hA
        have hnext1 : s1.next_page_id = s.next_page_id + s.num_instances := by rw [hs1]
        have hN1 : s1.num_instances = s.num_instances := by rw [hs1]
        have hI1 : s1.instance_index = s.instance_index := by rw [hs1]
        obtain ⟨ihid, ihmod⟩ := ih s1 ids1 s2 hrun
        rw [hnext1, hN1] at ihid
        rw [hN1, hI1] at ihmod
        subst hpid
        constructor
        · rw [List.range_succ_eq_map, List.map_cons, List.map_map, ihid]
          congr 1
          · simp
          · refine List.map_congr_left ?_
            intro m _
            simp only [Function.comp_apply]
            push_cast
            ring
        · intro p hp
          rcases List.mem_cons.mp hp with hc | hc
          · subst hc
            exact hok
          · exact ihmod p hc

/-- C7: starting from a freshly constructed instance
(`next_page_id_ = instance_index`), any defined run of `k` successive
`AllocatePage` calls returns exactly the arithmetic progression
`instance_index, instance_index + N, instance_index + 2N, …`; the ids are
strictly increasing, each satisfies `page_id mod num_instances ==
instance_index` (that mod being the `ValidatePageId` assertion, in C++
`uint32_t` arithmetic), no id repeats, and `DeletePgImp` never changes
`next_page_id_`, so deletion cannot cause an id to be handed out twice. -/
theorem allocate_page_progression (s : BPM) (k : Nat) (ids : List Int) (s' : BPM)
    (hN : 0 < s.num_instances)
    (hfresh : s.next_page_id = (s.instance_index : Int))
    (hrun : allocRun s k = some (ids, s')) :
    ids = (List.range k).map
      (fun m => (s.instance_index : Int) + (m * s.num_instances : Nat)) ∧
    List.Pairwise (· < ·) ids ∧
    (∀ pid ∈ ids, u32mod pid s.num_instances = s.instance_index) ∧
    ids.Nodup ∧
    (∀ (t : BPM) (pid : Int) (r : Bool) (t' : BPM),
      DeletePgImp t pid = some (r, t') → t'.next_page_id = t.next_page_id) := by
  obtain ⟨hid, hmod⟩ := allocRun_closed k s ids s' hrun
  rw [hfresh] at hid
  have hpair : List.Pairwise (· < ·) ids := by
    rw [hid, List.pairwise_map]
    refine (List.pairwise_lt_range k).imp ?_
    intro a b hab
    have hmul : (a * s.num_instances : Nat) < (b * s.num_instances : Nat) :=
      Nat.mul_lt_mul_of_lt_of_le hab (le_refl _) hN
    have hmul' : ((a * s.num_instances : Nat) : Int) <
        ((b * s.num_instances : Nat) : Int) := by exact_mod_cast hmul
    exact add_lt_add_left hmul' _
  refine ⟨hid, hpair, hmod, hpair.imp (fun h => ne_of_lt h), ?_⟩
  intro t pid r t' hdel
  unfold DeletePgImp at hdel
  split at hdel
  · simp only [Option.some.injEq, Prod.mk.injEq] at hdel
    rw [← hdel.2]
  · split at hdel
    · simp only [Option.some.injEq, Prod.mk.injEq] at hdel
      rw [← hdel.2]
    · exact Option.noConfusion hdel

/-- C7 (witness): three allocations on instance 2 of 4 yield 2, 6, 10 with
all the stated properties. -/
theorem allocate_page_progression_applied :
    (0 < bpmC7.num_instances ∧ bpmC7.next_page_id = (bpmC7.instance_index : Int)) ∧
    (([2, 6, 10] : List Int) = (List.range 3).map
        (fun m => (bpmC7.instance_index : Int) + (m * bpmC7.num_instances : Nat)) ∧
      List.Pairwise (· < ·) ([2, 6, 10] : List Int) ∧
      (∀ pid ∈ ([2, 6, 10] : List Int),
        u32mod pid bpmC7.num_instances = bpmC7.instance_index) ∧
      ([2, 6, 10] : List Int).Nodup ∧
      (∀ (t : BPM) (pid : Int) (r : Bool) (t' : BPM),
        DeletePgImp t pid = some (r, t') → t'.next_page_id = t.next_page_id)) :=
  ⟨⟨by decide, by decide⟩,
    allocate_page_progression bpmC7 3 [2, 6, 10]
      { bpmC7 with next_page_id := 14 } (by decide) (by decide) (by rfl)⟩

/-- C8 (amended): `Size()` returns `clock_size_ - pin_size_` in `size_t`
arithmetic, and `Pin` increments `pin_size_` whenever the search finds the
frame — even when the found node is already pinned, in which case the set
of pinned ring nodes is unchanged while `pin_size_` still grows, so
`pin_size` tracks the number of pinned ring entries only for sequences
that never `Pin` an already-pinned frame, and `Size` can underflow. -/
theorem pin_always_increments_pin_size (s : Clock) (fid : Int) (t : Nat)
    (hw : wfClock s) (ht : t < s.ring.length)
    (hfid : (s.ring.getD t default).frame_id = fid)
    (hfirst : ∀ u < t, (s.ring.getD u default).frame_id ≠ fid) :
    ClockPin s fid =
      { s with
        ring := s.ring.set t { s.ring.getD t default with pin := true, refer := true },
        pin_size := (s.pin_size + 1) % U64 } ∧
    ((s.ring.getD t default).pin = true →
      countPinned (ClockPin s fid).ring = countPinned s.ring) := by
  obtain ⟨hcs, hor, hU⟩ := hw
  have hL : 0 < s.ring.length := Nat.lt_of_le_of_lt (Nat.zero_le _) ht
  have hcs0 : s.clock_size ≠ 0 := by omega
  have hsearch : searchLoop s.ring s.ring.length fid s.clock_size 0 = some t := by
    rw [hcs, searchLoop_eq s.ring fid s.ring.length 0 (by omega)]
    refine find?_range'_some _ s.ring.length 0 t (Nat.zero_le t) (by omega)
      (by simp only [decide_eq_true_eq]; exact hfid) ?_
    intro u _ hu
    simp only [decide_eq_false_iff_not]
    exact hfirst u hu
  have hmain : ClockPin s fid =
      { s with
        ring := s.ring.set t { s.ring.getD t default with pin := true, refer := true },
        pin_size := (s.pin_size + 1) % U64 } := by
    unfold ClockPin
    rw [if_neg hcs0, hsearch]
  refine ⟨hmain, fun hpin => ?_⟩
  rw [hmain]
  exact countPinned_set s.ring t _ (by rw [hpin])

/-- C8 (witness): the `Pin` characterisation applied to the replacer whose
single node, frame 0, is already pinned. -/
theorem pin_always_increments_pin_size_applied :
    (wfClock clockOnePinned ∧ 0 < clockOnePinned.ring.length ∧
      (clockOnePinned.ring.getD 0 default).frame_id = 0) ∧
    (ClockPin clockOnePinned 0 =
      { clockOnePinned with
        ring := clockOnePinned.ring.set 0 { clockOnePinned.ring.getD 0 default with pin := true, refer := true },
        pin_size := (clockOnePinned.pin_size + 1) % U64 } ∧
      ((clockOnePinned.ring.getD 0 default).pin = true →
        countPinned (ClockPin clockOnePinned 0).ring =
          countPinned clockOnePinned.ring)) :=
  ⟨⟨by decide, by decide, by decide⟩,
    pin_always_increments_pin_size clockOnePinned 0 0 (by decide) (by decide)
      (by decide) (fun u hu => absurd hu (Nat.not_lt_zero u))⟩

/-- C10: whenever the free list is empty, the replacer (well formed, with
sane frame ids) yields no victim, and `AllocatePage` neither overflows nor
trips its assertion, `NewPgImp` returns the null page and the state is
unchanged except that `next_page_id_` has advanced by `num_instances_` —
the fresh id is consumed and permanently skipped while the page table,
frame array, free list, replacer and disk state stay as they were. -/
theorem failed_new_page_consumes_id (s : BPM)
    (hw : wfClock s.replacer)
    (hs : ∀ e ∈ s.replacer.ring, e.frame_id < INT_MAX)
    (hfree : s.free_list = [])
    (hv : (ClockVictim s.replacer).1 = none)
    (hno : s.next_page_id + s.num_instances ≤ INT_MAX)
    (hok : u32mod s.next_page_id s.num_instances = s.instance_index) :
    NewPgImp s =
      some (none, { s with next_page_id := s.next_page_id + s.num_instances }) := by
  have hfix := victim_none_state s.replacer hw hs hv
  have halloc : AllocatePage s =
      some (s.next_page_id, { s with next_page_id := s.next_page_id + s.num_instances }) := by
    unfold AllocatePage
    rw [if_neg (not_lt.mpr hno), if_pos hok]
  unfold NewPgImp
  rw [halloc]
  simp only [hfree, hfix]

/-- C10 (witness): the theorem applied to the one-frame fully pinned pool
`bpmC10`: the call returns null and only `next_page_id` moves, 5 → 6. -/
theorem failed_new_page_consumes_id_applied :
    (wfClock bpmC10.replacer ∧ bpmC10.free_list = [] ∧
      (ClockVictim bpmC10.replacer).1 = none) ∧
    NewPgImp bpmC10 =
      some (none, { bpmC10 with
        next_page_id := bpmC10.next_page_id + bpmC10.num_instances }) :=
  ⟨⟨by decide, rfl, by decide⟩,
    failed_new_page_consumes_id bpmC10 (by decide) (by decide) rfl (by decide)
      (by decide) (by decide)⟩

/-- C1 (witness): the amended characterisation applied to the concrete
well-formed state `clockSplice`. -/
theorem victim_spec_characterisation_applied :
    wfClock clockSplice ∧
    (ClockVictim clockSplice = victimSpec clockSplice ∧
      ((ClockVictim clockSplice).1 = none ↔
        ∀ e ∈ clockSplice.ring, e.pin = true ∨
          (e.refer = true ∧ INT_MAX ≤ e.frame_id)) ∧
      (firstBreak clockSplice = none → ∀ f, (ClockVictim clockSplice).1 = some f →
        (∃ e ∈ clockSplice.ring, e.pin = false ∧ e.frame_id = f) ∧
        ∀ e ∈ clockSplice.ring, e.pin = false → f ≤ e.frame_id) ∧
      (∀ f, (ClockVictim clockSplice).1 = some f →
        (ClockVictim clockSplice).2.clock_size = clockSplice.clock_size - 1)) :=
  ⟨by decide, victim_spec_characterisation clockSplice (by decide)⟩

end Bustub
